import Mathlib

/-!
# Verification of the seismic web server's telemetry ingestion core

Shallow embedding of `src/services/socketService.js` (the Socket.IO /
native-WebSocket decode pipeline and the Web-Serial byte-stream service).
JavaScript strings are modelled as `List Char`.  JavaScript numbers that
arise from parsing textual input are modelled exactly as a decimal
mantissa/exponent pair `JsNum` (the pipeline performs no arithmetic on
amplitudes, it only parses and forwards them, so the pair is carried
unchanged; `JsNum.toRat` gives the value).  The special values
`NaN`/`Infinity` are modelled through `Option`, a parse producing `NaN`
being `none`.  Wall-clock instants (`Date.getTime()`) are modelled as
`ℤ` milliseconds.
-/

/-! ## Basic string utilities (JS built-ins used by the source) -/

/-- The whitespace class used by JS `String.prototype.trim` and by
`parseFloat`'s leading-whitespace skip (the common members; exotic
Unicode space separators beyond NBSP/BOM are not used by the claims). -/
def isSpaceJS (c : Char) : Bool :=
  c = ' ' || c = '\t' || c = '\n' || c = '\r' ||
  c = '\x0b' || c = '\x0c' || c = '\u00A0' || c = '\uFEFF'

/-- JS `s.trim()` on a character list. -/
def trimL (s : List Char) : List Char :=
  ((s.dropWhile isSpaceJS).reverse.dropWhile isSpaceJS).reverse

/-- Value of a run of decimal digits (JS `parseInt(run, 10)` on a pure
digit string, as produced by the `/T(\d+)/`-style capture groups). -/
def digitsToNat (ds : List Char) : ℕ :=
  ds.foldl (fun a c => 10 * a + (c.toNat - '0'.toNat)) 0

/-- JS `s.includes(ab)` for a two-character needle `ab`: is there an
adjacent occurrence of `a` followed by `b`? -/
def hasPair (a b : Char) : List Char → Bool
  | [] => false
  | c :: s => (c == a && s.head? == some b) || hasPair a b s

/-- JS `s.split(ab)` for a two-character separator `ab` (leftmost-first,
non-overlapping, like `String.prototype.split` with a string argument). -/
def splitOn2 (a b : Char) : List Char → List (List Char)
  | [] => [[]]
  | [c] => [[c]]
  | c :: d :: r =>
    if c = a ∧ d = b then [] :: splitOn2 a b r
    else
      match splitOn2 a b (d :: r) with
      | [] => [[c]]
      | t :: ts => (c :: t) :: ts

/-- JS `parts.join(',')` (used by `sendMultipleAmplitudes` and the
dual/triple waveform test senders). -/
def joinComma : List (List Char) → List Char
  | [] => []
  | [t] => t
  | t :: ts => t ++ ',' :: joinComma ts

/-- `split(',').map(p => p.trim()).filter(p => p.length > 0)` — the token
extraction applied to every channel segment in `connectNativeWebSocket`. -/
def toTokens (s : List Char) : List (List Char) :=
  ((s.splitOn ',').map trimL).filter (fun t => t ≠ [])

/-! ## `parseFloat` (JS builtin, modelled over `ℚ`)

`parseFloat` skips leading whitespace, reads an optional sign, a digit
run, an optional `.` with a fractional digit run (at least one digit must
appear overall), and an optional exponent — the exponent marker is
consumed only when followed by a well-formed exponent (JS backtracks on
`"1e"`).  Trailing garbage is ignored.  A parse that yields `NaN` is
`none`.  (`"Infinity"` literals are not modelled: no finite value exists
for them and no claim mentions them.) -/

/-- The exact value of a parsed decimal literal: `mant × 10 ^ exp10`.
The sign, integer digits, fractional digits and exponent of the literal
determine the pair; no rounding occurs and no arithmetic is ever applied
to an amplitude downstream, so the pair is a faithful stand-in for the
JS number. -/
structure JsNum where
  mant : ℤ
  exp10 : ℤ
deriving DecidableEq

/-- The rational value a `JsNum` denotes. -/
def JsNum.toRat (n : JsNum) : ℚ := (n.mant : ℚ) * (10 : ℚ) ^ n.exp10

/-- Leading-number parse: the value and the unconsumed remainder. -/
def floatLead (s : List Char) : Option (JsNum × List Char) :=
  let s1 := s.dropWhile isSpaceJS
  let sgn : ℤ × List Char :=
    match s1 with
    | '+' :: r => (1, r)
    | '-' :: r => (-1, r)
    | _ => (1, s1)
  let ip := sgn.2.takeWhile Char.isDigit
  let s3 := sgn.2.drop ip.length
  let fpr : List Char × List Char :=
    match s3 with
    | '.' :: r => (r.takeWhile Char.isDigit, r.drop (r.takeWhile Char.isDigit).length)
    | _ => ([], s3)
  if ip = [] ∧ fpr.1 = [] then none
  else
    let ex : ℤ × List Char :=
      match fpr.2 with
      | e :: r =>
        if e = 'e' ∨ e = 'E' then
          let es : ℤ × List Char :=
            match r with
            | '+' :: r2 => (1, r2)
            | '-' :: r2 => (-1, r2)
            | _ => (1, r)
          let ed := es.2.takeWhile Char.isDigit
          if ed = [] then (0, fpr.2) else (es.1 * (digitsToNat ed : ℤ), es.2.drop ed.length)
        else (0, fpr.2)
      | [] => (0, fpr.2)
    some (⟨sgn.1 * (digitsToNat (ip ++ fpr.1) : ℤ), ex.1 - fpr.1.length⟩, ex.2)

/-- JS `parseFloat(s)`: `none` models `NaN`. -/
def parseFloatNum (s : List Char) : Option JsNum :=
  (floatLead s).map (·.1)

/-! ## `JSON.parse` (JS builtin, modelled)

A JSON value; numbers as `ℚ`, strings as `List Char`, objects as
association lists in textual order (`JSON.parse` keeps the last of
duplicate keys, which the `getField` accessor below reflects). -/

inductive JVal where
  | jnull : JVal
  | jbool : Bool → JVal
  | jnum : JsNum → JVal
  | jstr : List Char → JVal
  | jarr : List JVal → JVal
  | jobj : List (List Char × JVal) → JVal

/-- JSON's whitespace (space, tab, newline, carriage return). -/
def jsonWS (c : Char) : Bool :=
  c = ' ' || c = '\t' || c = '\n' || c = '\r'

/-- Hex digit value, for `\uXXXX` string escapes. -/
def hexVal (c : Char) : Option ℕ :=
  if '0' ≤ c ∧ c ≤ '9' then some (c.toNat - '0'.toNat)
  else if 'a' ≤ c ∧ c ≤ 'f' then some (c.toNat - 'a'.toNat + 10)
  else if 'A' ≤ c ∧ c ≤ 'F' then some (c.toNat - 'A'.toNat + 10)
  else none

/-- Body of a JSON string literal after the opening quote; `acc` holds the
decoded characters in reverse.  Unescaped control characters are a parse
error, exactly as in `JSON.parse`. -/
def parseJStr : List Char → List Char → Option (List Char × List Char)
  | acc, '"' :: rest => some (acc.reverse, rest)
  | acc, '\\' :: 'u' :: h1 :: h2 :: h3 :: h4 :: rest =>
    match hexVal h1, hexVal h2, hexVal h3, hexVal h4 with
    | some a, some b, some c, some d =>
      parseJStr (Char.ofNat (((a * 16 + b) * 16 + c) * 16 + d) :: acc) rest
    | _, _, _, _ => none
  | acc, '\\' :: e :: rest =>
    if e = '"' then parseJStr ('"' :: acc) rest
    else if e = '\\' then parseJStr ('\\' :: acc) rest
    else if e = '/' then parseJStr ('/' :: acc) rest
    else if e = 'b' then parseJStr ('\x08' :: acc) rest
    else if e = 'f' then parseJStr ('\x0c' :: acc) rest
    else if e = 'n' then parseJStr ('\n' :: acc) rest
    else if e = 'r' then parseJStr ('\r' :: acc) rest
    else if e = 't' then parseJStr ('\t' :: acc) rest
    else none
  | acc, c :: rest => if c.toNat < 0x20 then none else parseJStr (c :: acc) rest
  | _, [] => none

/-- A JSON number (strict grammar: `-?(0|[1-9]\d*)(\.\d+)?([eE][+-]?\d+)?`). -/
def parseJNum (s : List Char) : Option (JsNum × List Char) :=
  let sg : ℤ × List Char := match s with
    | '-' :: r => (-1, r)
    | _ => (1, s)
  let ip := sg.2.takeWhile Char.isDigit
  if ip = [] then none
  else if ip.head? = some '0' ∧ ip.length > 1 then none
  else
    let s2 := sg.2.drop ip.length
    let fr : Option (List Char × List Char) := match s2 with
      | '.' :: r =>
        let f := r.takeWhile Char.isDigit
        if f = [] then none else some (f, r.drop f.length)
      | _ => some ([], s2)
    match fr with
    | none => none
    | some (fp, s3) =>
      let exr : Option (ℤ × List Char) := match s3 with
        | e :: r =>
          if e = 'e' ∨ e = 'E' then
            let es : ℤ × List Char := match r with
              | '+' :: r2 => (1, r2)
              | '-' :: r2 => (-1, r2)
              | _ => (1, r)
            let ed := es.2.takeWhile Char.isDigit
            if ed = [] then none else some (es.1 * (digitsToNat ed : ℤ), es.2.drop ed.length)
          else some (0, s3)
        | [] => some (0, s3)
      match exr with
      | none => none
      | some (ex, s4) =>
        some (⟨sg.1 * (digitsToNat (ip ++ fp) : ℤ), ex - fp.length⟩, s4)

mutual

/-- One JSON value (fuelled recursive-descent; the fuel only bounds the
nesting depth, which is at most the input length). -/
def parseJVal : ℕ → List Char → Option (JVal × List Char)
  | 0, _ => none
  | n + 1, s =>
    match s.dropWhile jsonWS with
    | '{' :: r =>
      (parseJMembers n (r.dropWhile jsonWS)).map (fun p => (JVal.jobj p.1, p.2))
    | '[' :: r =>
      (parseJElems n (r.dropWhile jsonWS)).map (fun p => (JVal.jarr p.1, p.2))
    | '"' :: r => (parseJStr [] r).map (fun p => (JVal.jstr p.1, p.2))
    | 't' :: 'r' :: 'u' :: 'e' :: r => some (JVal.jbool true, r)
    | 'f' :: 'a' :: 'l' :: 's' :: 'e' :: r => some (JVal.jbool false, r)
    | 'n' :: 'u' :: 'l' :: 'l' :: r => some (JVal.jnull, r)
    | r => (parseJNum r).map (fun p => (JVal.jnum p.1, p.2))

/-- Members of a JSON object after `{` (leading whitespace consumed). -/
def parseJMembers : ℕ → List Char → Option (List (List Char × JVal) × List Char)
  | 0, _ => none
  | n + 1, s =>
    match s with
    | '}' :: r => some ([], r)
    | '"' :: r =>
      match parseJStr [] r with
      | none => none
      | some (k, r2) =>
        match r2.dropWhile jsonWS with
        | ':' :: r3 =>
          match parseJVal n r3 with
          | none => none
          | some (v, r4) =>
            match r4.dropWhile jsonWS with
            | ',' :: r5 =>
              (parseJMembers n (r5.dropWhile jsonWS)).map (fun p => ((k, v) :: p.1, p.2))
            | '}' :: r5 => some ([(k, v)], r5)
            | _ => none
        | _ => none
    | _ => none

/-- Elements of a JSON array after `[` (leading whitespace consumed). -/
def parseJElems : ℕ → List Char → Option (List JVal × List Char)
  | 0, _ => none
  | n + 1, s =>
    match s with
    | ']' :: r => some ([], r)
    | _ =>
      match parseJVal n s with
      | none => none
      | some (v, r2) =>
        match r2.dropWhile jsonWS with
        | ',' :: r3 => (parseJElems n r3).map (fun p => (v :: p.1, p.2))
        | ']' :: r3 => some ([v], r3)
        | _ => none

end

/-- JS `JSON.parse(s)`: `none` models a thrown `SyntaxError`. -/
def parseJson (s : List Char) : Option JVal :=
  match parseJVal (s.length + 1) s with
  | some (v, rest) => if rest.dropWhile jsonWS = [] then some v else none
  | none => none

/-- JS property read `o[k]` on a parsed object: `JSON.parse` keeps the
last duplicate key, so the rightmost binding wins; `none` models
`undefined`. -/
def getField (fs : List (List Char × JVal)) (k : List Char) : Option JVal :=
  (fs.reverse.find? (fun p => p.1 = k)).map (·.2)

/-- JS property write `o[k] = v` (observable through `getField`). -/
def setField (fs : List (List Char × JVal)) (k : List Char) (v : JVal) :
    List (List Char × JVal) :=
  if fs.any (fun p => p.1 = k) then
    fs.map (fun p => if p.1 = k then (k, v) else p)
  else fs ++ [(k, v)]

/-- JS truthiness of a parsed JSON value (`data.payload` is tested for
truthiness before the envelope is processed). -/
def truthy : JVal → Bool
  | JVal.jnull => false
  | JVal.jbool b => b
  | JVal.jnum q => q.mant ≠ 0  -- the value is zero exactly when the mantissa is
  | JVal.jstr s => s ≠ []
  | JVal.jarr _ => true
  | JVal.jobj _ => true

/-- JS property read on an arbitrary parsed value: only objects carry the
named properties the handler looks at (`.type`, `.payload` on an array or
primitive are `undefined`). -/
def getProp (v : JVal) (k : List Char) : Option JVal :=
  match v with
  | JVal.jobj fs => getField fs k
  | _ => none

/-! ## Data model: decoded samples and the message handler's effect -/

/-- `'external'`, the `source` tag on every transport-decoded sample. -/
def extSource : List Char := "external".toList

def ampKey : List Char := "amplitude".toList

def typeKey : List Char := "type".toList

def payloadKey : List Char := "payload".toList

/-- The recognized envelope type tag `'earthquake-data'`. -/
def eqDataTag : List Char := "earthquake-data".toList

def wfSingle : List Char := "waveform".toList

def wfDual : List Char := "dual-waveform".toList

def wfTriple : List Char := "triple-waveform".toList

/-- The metadata annotations shared by the samples of one frame. -/
structure SampleMeta where
  temperature : Option ℕ := none
  humidity : Option ℕ := none
  voltage : Option ℕ := none
  dataType : Option (List Char) := none
  secondWaveform : Bool := false
  thirdWaveform : Bool := false
deriving DecidableEq

/-- One decoded sample, as handed to `onEarthquakeData` (the JS metadata
dictionary is flattened into named fields; absent keys are `none`). -/
structure Sample where
  amplitude : JsNum
  timestamp : ℤ
  source : List Char := extSource
  raw : Bool := true
  batchIndex : Option ℕ := none
  batchSize : Option ℕ := none
  waveformType : Option Char := none
  meta : SampleMeta := {}
deriving DecidableEq

/-- What a message handler invocation passes to its callback: one sample,
a batch of samples, or a processed structured envelope. -/
inductive Emit where
  | single : Sample → Emit
  | batch : List Sample → Emit
  | env : List (List Char × JVal) → Emit

/-- The observable effect of one `onmessage` invocation:
what was emitted to `onEarthquakeData` (if anything), whether the
malformed-JSON branch logged a parse error to the console, and whether
the caller-supplied `onError` callback was invoked. -/
structure MsgEffect where
  emitted : Option Emit
  parseErrorLogged : Bool := false
  onErrorCalled : Bool := false

def noEmit : MsgEffect := { emitted := none }

/-- The per-channel sample builder: the source maps each token at `index`
to a sample timestamped `currentTime − (length − 1 − index) × 10` ms and
drops tokens `parseFloat` cannot parse (`map` to `null` then `filter`,
fused here into one recursion); `n` is the channel's token count and `i`
the running index. -/
def mkPointsFrom (n : ℕ) (A : ℤ) (wt : Option Char) (md : SampleMeta) :
    ℕ → List (List Char) → List Sample
  | _, [] => []
  | i, p :: ps =>
    match parseFloatNum p with
    | none => mkPointsFrom n A wt md (i + 1) ps
    | some q =>
      { amplitude := q, timestamp := A - ((n : ℤ) - 1 - (i : ℤ)) * 10,
        batchIndex := some i, batchSize := some n, waveformType := wt, meta := md } ::
      mkPointsFrom n A wt md (i + 1) ps

/-- Samples of one channel's token list at arrival instant `A`. -/
def mkPoints (pts : List (List Char)) (A : ℤ) (wt : Option Char) (md : SampleMeta) :
    List Sample :=
  mkPointsFrom pts.length A wt md 0 pts

/-- The metadata prefix test-and-extract: `/^T\d+H\d+V\d+,/` plus the
`/T(\d+)/ /H(\d+)/ /V(\d+)/` captures and the removal of everything up to
the first comma.  Returns `(temperature, humidity, voltage, rest)`. -/
def metaHeader (s : List Char) : Option (ℕ × ℕ × ℕ × List Char) :=
  match s with
  | [] => none
  | c1 :: r1 =>
    if c1 = 'T' then
      let t := r1.takeWhile Char.isDigit
      if t = [] then none
      else
        match r1.drop t.length with
        | [] => none
        | c2 :: r2 =>
          if c2 = 'H' then
            let h := r2.takeWhile Char.isDigit
            if h = [] then none
            else
              match r2.drop h.length with
              | [] => none
              | c3 :: r3 =>
                if c3 = 'V' then
                  let v := r3.takeWhile Char.isDigit
                  if v = [] then none
                  else
                    match r3.drop v.length with
                    | [] => none
                    | c4 :: rest =>
                      if c4 = ',' then
                        some (digitsToNat t, digitsToNat h, digitsToNat v, rest)
                      else none
                else none
          else none
    else none

/-- A non-empty decoded batch is handed to `onEarthquakeData`; an empty
one is not (`allProcessedPoints.length > 0` guard on every branch). -/
def emitBatch (out : List Sample) : MsgEffect :=
  if out.length > 0 then { emitted := some (Emit.batch out) } else noEmit

/-- Triple-waveform metadata annotations (lines 199–201). -/
def md3 (md : SampleMeta) : SampleMeta :=
  { md with dataType := some wfTriple, secondWaveform := true, thirdWaveform := true }

/-- Dual-waveform metadata annotations (lines 213–214). -/
def md2 (md : SampleMeta) : SampleMeta :=
  { md with dataType := some wfDual, secondWaveform := true }

/-- Single-`X`-waveform metadata annotation (line 220). -/
def md1 (md : SampleMeta) : SampleMeta :=
  { md with dataType := some wfSingle }

/-- The channel detection and sample construction of the comma branch
(lines 176–361), after the optional metadata prefix has been removed:
`X`/`,Y`/`,Z` markers are detected by substring search, each channel's
segment is tokenized, and every channel is timestamped from the same
arrival instant `A`.  The two empty-pattern fallbacks are unreachable
(`includes` guarantees two split parts); the `q0 :: []` fallback models
the `xyParts[1].split` crash on a `,Z` frame without `,Y`, which the
outer catch turns into "no emission". -/
def decodeChannels (pm : List Char) (A : ℤ) (md : SampleMeta) : List Sample :=
  if pm.head? = some 'X' then
    if hasPair ',' 'Z' pm then
      match splitOn2 ',' 'Z' pm with
      | p0 :: p1 :: _ =>
        (match splitOn2 ',' 'Y' p0 with
         | q0 :: q1 :: _ =>
           mkPoints (toTokens (q0.drop 1)) A (some 'X') (md3 md) ++
           mkPoints (toTokens q1) A (some 'Y') (md3 md) ++
           mkPoints (toTokens p1) A (some 'Z') (md3 md)
         | _ => [])
      | _ => []
    else if hasPair ',' 'Y' pm then
      match splitOn2 ',' 'Y' pm with
      | p0 :: p1 :: _ =>
        mkPoints (toTokens (p0.drop 1)) A (some 'X') (md2 md) ++
        mkPoints (toTokens p1) A (some 'Y') (md2 md)
      | _ => []
    else
      mkPoints (toTokens (pm.drop 1)) A (some 'X') (md1 md)
  else
    mkPoints (toTokens pm) A none md

/-- The comma-separated branch of `connectNativeWebSocket`'s `onmessage`
(lines 150–362): optional metadata prefix extraction, then channel
decoding; the resulting batch is emitted only when non-empty. -/
def decodeComma (s : List Char) (A : ℤ) : MsgEffect :=
  match metaHeader s with
  | some (t, h, v, rest) =>
    emitBatch (decodeChannels rest A
      { temperature := some t, humidity := some h, voltage := some v })
  | none => emitBatch (decodeChannels s A {})

/-- The string-amplitude normalization applied to envelope payloads (and
to the Socket.IO `earthquake-data` listener's `data.amplitude`): a string
is converted with `parseFloat` and replaced only when the result is not
`NaN`; any other value is left untouched. -/
def processAmplitude : JVal → JVal
  | JVal.jstr s =>
    (match parseFloatNum s with
     | some q => JVal.jnum q
     | none => JVal.jstr s)
  | v => v

/-- JS object spread `{...payload}` as far as its named properties are
observable: an object contributes its fields; spreading `null`, a
boolean or a number yields `{}`.  (Spreading a string or an array yields
numeric-index fields, which nothing in the handler reads.) -/
def spreadFields : JVal → List (List Char × JVal)
  | JVal.jobj fs => fs
  | _ => []

/-- Envelope processing (lines 127–141): copy the payload and coerce a
string `amplitude` with `parseFloat`, keeping the original string when
the parse yields `NaN`. -/
def processEnvelope (payload : JVal) : List (List Char × JVal) :=
  match getField (spreadFields payload) ampKey with
  | some (JVal.jstr s) =>
    (match parseFloatNum s with
     | some q => setField (spreadFields payload) ampKey (JVal.jnum q)
     | none => spreadFields payload)
  | _ => spreadFields payload

/-- The envelope guard `data.type === 'earthquake-data' && data.payload`
(line 123): a strict string comparison on `.type` and a truthiness test
on `.payload`. -/
def isEqEnvelope (v : JVal) : Bool :=
  (match getProp v typeKey with
   | some (JVal.jstr t) => t == eqDataTag
   | _ => false) &&
  (getProp v payloadKey).elim false truthy

/-- The whole `onmessage` handler of `connectNativeWebSocket`
(lines 114–387), as a function of the message text and the arrival
instant `A` (`new Date()`).  The outer `try`/`catch` makes the handler
total; `onError` is never invoked from this path. -/
def decodeMsg (s : List Char) (A : ℤ) : MsgEffect :=
  if s.head? = some '{' ∨ s.head? = some '[' then
    match parseJson s with
    | none => { emitted := none, parseErrorLogged := true }
    | some v =>
      if isEqEnvelope v then
        { emitted :=
            some (Emit.env (processEnvelope ((getProp v payloadKey).getD JVal.jnull))) }
      else noEmit
  else if ',' ∈ s then decodeComma s A
  else
    match parseFloatNum s with
    | some q => { emitted := some (Emit.single { amplitude := q, timestamp := A }) }
    | none => noEmit

/-- The sample sequence a handler invocation delivers (empty when nothing
or a structured envelope is emitted). -/
def emittedList (e : MsgEffect) : List Sample :=
  match e.emitted with
  | some (Emit.batch l) => l
  | some (Emit.single s) => [s]
  | _ => []

/-- The amplitudes of the delivered samples, in order. -/
def emittedAmps (e : MsgEffect) : List JsNum :=
  (emittedList e).map (·.amplitude)

/-- The numeric `amplitude` of an emitted envelope, when it is a number. -/
def envAmpNum (e : MsgEffect) : Option JsNum :=
  match e.emitted with
  | some (Emit.env fs) =>
    (match getField fs ampKey with
     | some (JVal.jnum q) => some q
     | _ => none)
  | _ => none

/-- The string `amplitude` of an emitted envelope, when it is a string. -/
def envAmpStr (e : MsgEffect) : Option (List Char) :=
  match e.emitted with
  | some (Emit.env fs) =>
    (match getField fs ampKey with
     | some (JVal.jstr s) => some s
     | _ => none)
  | _ => none

/-- The outbound triple-waveform wire form built by
`sendTripleWaveformTestData` (line 532):
`T{t}H{h}V{v},X{xs},Y{ys},Z{zs}`. -/
def buildTriple (t h v : List Char) (xs ys zs : List (List Char)) : List Char :=
  'T' :: t ++ 'H' :: h ++ 'V' :: v ++
  ',' :: 'X' :: joinComma xs ++ ',' :: 'Y' :: joinComma ys ++ ',' :: 'Z' :: joinComma zs

/-! ## Socket.IO subscription registry (`subscribeToEarthquakeData`) -/

/-- A subscriber callback: only its identity and whether invoking it
throws are observable to the registry. -/
structure CB where
  id : ℕ
  raises : Bool
deriving DecidableEq

/-- `subscribers.forEach(cb => cb(processedData))` (line 75): the
callbacks run in registration order with no surrounding `try`; an
exception propagates out of `forEach`, so callbacks after the first
raising one are not reached.  Returns the invoked ids (in order) and
whether the pass raised. -/
def forEachDeliver : List CB → List ℕ × Bool
  | [] => ([], false)
  | c :: rest =>
    if c.raises then ([c.id], true)
    else
      let r := forEachDeliver rest
      (c.id :: r.1, r.2)

/-- The push-transport registry state: the module-level `subscribers`
array plus the number of `'earthquake-data'` listeners attached to the
socket (`subscribeToEarthquakeData` attaches a fresh listener per call
in addition to pushing the callback). -/
structure PushState where
  subscribers : List CB
  listeners : ℕ

def pushInit : PushState := ⟨[], 0⟩

/-- `subscribeToEarthquakeData(cb)` with a connected socket (lines
44–77): push the callback and attach one more `'earthquake-data'`
listener, each of which iterates the whole shared subscriber list. -/
def subscribeEq (st : PushState) (c : CB) : PushState :=
  ⟨st.subscribers ++ [c], st.listeners + 1⟩

def subscribeAll (st : PushState) (cs : List CB) : PushState :=
  cs.foldl subscribeEq st

/-- One incoming `'earthquake-data'` message: the socket invokes every
attached listener in order and each listener's handler runs
`subscribers.forEach`; the concatenated invocation sequence results.
(When a callback raises, whether later listeners still run is decided by
the Socket.IO emitter, not by repository code; this function is used
only under a no-raise hypothesis.) -/
def deliverEvent (st : PushState) : List ℕ :=
  (List.range st.listeners).flatMap (fun _ => (forEachDeliver st.subscribers).1)

/-! ## Web-Serial byte-stream service (`serialService`) -/

/-- The character class removed from each decoded chunk:
`[\x00-\x08\x0B\x0C\x0E-\x1F\x7F]` (line 762). -/
def strippedCtl (c : Char) : Bool :=
  (c.toNat ≤ 0x08) || c.toNat == 0x0b || c.toNat == 0x0c ||
  (0x0e ≤ c.toNat && c.toNat ≤ 0x1f) || c.toNat == 0x7f

/-- The text clean-up `_readLoop` applies to each decoded chunk (lines
756–762): every `�` (the `TextDecoder`'s substitute for an invalid
byte sequence, since `fatal: false`) becomes `'?'`, then the control
characters of `strippedCtl` are removed. -/
def processChunk (text : List Char) : List Char :=
  (text.map (fun c => if c = '�' then '?' else c)).filter (fun c => !strippedCtl c)

/-- The serial service's connection state: whether `this.port`,
`this.reader` are non-null and the `keepReading` flag. -/
structure SerialSvc where
  port : Bool
  reader : Bool
  keepReading : Bool

/-- An operation's `{success, error}` result object. -/
structure OpResult where
  success : Bool
  error : Option (List Char)
deriving DecidableEq

/-- `'没有打开的串口'` — the failure reason when no port is open. -/
def noPortMsg : List Char := "没有打开的串口".toList

/-- `closePort()` (lines 678–705): with no open port it returns a
failure result and changes nothing; otherwise it clears `keepReading`,
awaits the loop, cancels and clears the reader, closes and clears the
port, and reports success.  (The platform `cancel`/`close` calls are
modelled as succeeding.) -/
def closePort (s : SerialSvc) : SerialSvc × OpResult :=
  if s.port then
    ({ port := false, reader := false, keepReading := false }, ⟨true, none⟩)
  else (s, ⟨false, some noPortMsg⟩)

/-- One result of `reader.read()` as seen by `_readLoop`: a chunk
(already decoded from bytes by the shared `TextDecoder`, so invalid byte
sequences appear as `�`), end-of-stream (`done: true`), or a
rejected read. -/
inductive ReadEv where
  | chunk : List Char → ReadEv
  | done : ReadEv
  | errorEv : ReadEv

/-- The observable outcome of one `_readLoop` run: the texts handed to
`dataCallback`, how many times `releaseLock()` ran, whether
`errorCallback` ran, and whether the loop's promise has resolved. -/
structure LoopOut where
  outputs : List (List Char)
  released : ℕ
  errored : Bool
  finished : Bool
deriving DecidableEq

/-- `keepReading` as observed at the loop's `i`-th condition check:
`cancelAt = some k` means the flag was cleared (by `closePort`) before
check `k`. -/
def keepAt (cancelAt : Option ℕ) (i : ℕ) : Bool :=
  match cancelAt with
  | none => true
  | some k => i < k

/-- `_readLoop` (lines 743–778) over a sequence of read results, with
cooperative cancellation.  Exhausting `evs` while `keepReading` still
holds models a `read()` that never resolves: the loop is then still
pending and its `finally` has not yet run (`finished = false`). -/
def readLoopGo (cancelAt : Option ℕ) : ℕ → List ReadEv → LoopOut
  | i, evs =>
    if keepAt cancelAt i = false then ⟨[], 1, false, true⟩
    else
      match evs with
      | [] => ⟨[], 0, false, false⟩
      | ReadEv.done :: _ => ⟨[], 1, false, true⟩
      | ReadEv.errorEv :: _ => ⟨[], 1, true, true⟩
      | ReadEv.chunk t :: rest =>
        let r := readLoopGo cancelAt (i + 1) rest
        ⟨processChunk t :: r.outputs, r.released, r.errored, r.finished⟩

/-- A full `_readLoop` run from the first condition check. -/
def readLoopRun (cancelAt : Option ℕ) (evs : List ReadEv) : LoopOut :=
  readLoopGo cancelAt 0 evs

/-! ## Registry lemmas -/

/-- With no raising callback, a `forEach` pass invokes every registered
callback in order and completes without raising. -/
theorem forEachDeliver_no_raise (cbs : List CB) (h : ∀ c ∈ cbs, c.raises = false) :
    forEachDeliver cbs = (cbs.map (·.id), false) := by
  induction cbs with
  | nil => rfl
  | cons c rest ih =>
    have hc : c.raises = false := h c (by simp)
    simp [forEachDeliver, hc, ih (fun d hd => h d (by simp [hd]))]

/-- `subscribeAll` appends the callbacks and attaches one listener per
call. -/
theorem subscribeAll_spec (st : PushState) (cs : List CB) :
    (subscribeAll st cs).subscribers = st.subscribers ++ cs ∧
    (subscribeAll st cs).listeners = st.listeners + cs.length := by
  induction cs generalizing st with
  | nil => simp [subscribeAll]
  | cons c rest ih =>
    have h := ih ⟨st.subscribers ++ [c], st.listeners + 1⟩
    unfold subscribeAll at h ⊢
    rw [List.foldl_cons]
    refine ⟨?_, ?_⟩
    · rw [show subscribeEq st c = ⟨st.subscribers ++ [c], st.listeners + 1⟩ from rfl, h.1]
      simp
    · rw [show subscribeEq st c = ⟨st.subscribers ++ [c], st.listeners + 1⟩ from rfl, h.2]
      simp [Nat.add_assoc, Nat.add_comm 1]

/-- Occurrence count of an id over the `n`-fold repetition of one
delivery pass. -/
theorem count_repeat_pass (n : ℕ) (l : List ℕ) (a : ℕ) :
    ((List.range n).flatMap (fun _ => l)).count a = n * l.count a := by
  induction n with
  | zero => simp
  | succ m ih =>
    rw [List.range_succ, List.flatMap_append, List.count_append, ih]
    simp [Nat.succ_mul]

/-! ## Claim C1 — fan-out isolation -/

/-- C1 counterexample: two subscribers are registered and the first one
raises during delivery; the `forEach` pass at line 75 invokes only the
first callback, so the second registered subscriber never receives the
batch — the claim's "every one of the k callbacks is invoked" fails. -/
theorem c1_counterexample :
    (forEachDeliver [CB.mk 0 true, CB.mk 1 false]).1 = [0] ∧
    ¬ (∀ c ∈ [CB.mk 0 true, CB.mk 1 false],
        c.id ∈ (forEachDeliver [CB.mk 0 true, CB.mk 1 false]).1) := by
  decide

/-- C1 amended: delivery is *not* isolated per subscriber.  The `forEach`
pass invokes callbacks in registration order up to and including the
first raising one, and skips every later callback for that batch; only
when no registered callback raises does every subscriber receive it. -/
theorem c1_amended (cbs : List CB) :
    (forEachDeliver cbs).1 =
      (cbs.takeWhile (fun c => !c.raises)).map (·.id) ++
        (((cbs.dropWhile (fun c => !c.raises)).head?).map (·.id)).toList ∧
    ((∀ c ∈ cbs, c.raises = false) → (forEachDeliver cbs).1 = cbs.map (·.id)) := by
  constructor
  · induction cbs with
    | nil => rfl
    | cons c rest ih =>
      by_cases hc : c.raises
      · simp [forEachDeliver, hc, List.takeWhile_cons, List.dropWhile_cons]
      · simp only [Bool.not_eq_true] at hc
        simp [forEachDeliver, hc, List.takeWhile_cons, List.dropWhile_cons, ih]
  · intro h
    rw [forEachDeliver_no_raise cbs h]

/-- Witness for `c1_amended` at a concrete raise-free registration. -/
theorem c1_amended_witness :
    (∀ c ∈ [CB.mk 4 false, CB.mk 7 false], c.raises = false) ∧
    (forEachDeliver [CB.mk 4 false, CB.mk 7 false]).1 =
      [CB.mk 4 false, CB.mk 7 false].map (·.id) :=
  ⟨by decide, (c1_amended [CB.mk 4 false, CB.mk 7 false]).2 (by decide)⟩

/-! ## Claim C9 — delivery multiplicity grows with subscribe calls -/

/-- C9: after `k` calls to `subscribeToEarthquakeData` the registry holds
the `k` callbacks *and* `k` attached `'earthquake-data'` listeners, and a
single incoming message invokes each distinct registered callback once
per listener, i.e. `k` times — not exactly once. -/
theorem c9_multiplicity (cs : List CB) (hnr : ∀ c ∈ cs, c.raises = false)
    (hnd : (cs.map (·.id)).Nodup) :
    (subscribeAll pushInit cs).subscribers = cs ∧
    (subscribeAll pushInit cs).listeners = cs.length ∧
    ∀ c ∈ cs, (deliverEvent (subscribeAll pushInit cs)).count c.id = cs.length := by
  obtain ⟨hsub, hlis⟩ := subscribeAll_spec pushInit cs
  rw [show pushInit.subscribers = [] from rfl, List.nil_append] at hsub
  rw [show pushInit.listeners = 0 from rfl, Nat.zero_add] at hlis
  refine ⟨hsub, hlis, ?_⟩
  intro c hc
  unfold deliverEvent
  rw [hsub, hlis, forEachDeliver_no_raise cs hnr, count_repeat_pass]
  have hcount : (cs.map (·.id)).count c.id = 1 :=
    List.count_eq_one_of_mem hnd (List.mem_map_of_mem (·.id) hc)
  rw [hcount, Nat.mul_one]

/-- Witness for `c9_multiplicity`: two subscribe calls make every
incoming message invoke each callback twice. -/
theorem c9_multiplicity_witness :
    (deliverEvent (subscribeAll pushInit [CB.mk 3 false, CB.mk 5 false])).count 3 = 2 :=
  (c9_multiplicity [CB.mk 3 false, CB.mk 5 false] (by decide) (by decide)).2.2
    (CB.mk 3 false) (by decide)

/-! ## Claim C7 — serial chunk text clean-up -/

/-- C7 counterexample: the strip regex `[\x00-\x08\x0B\x0C\x0E-\x1F\x7F]`
does not cover TAB (`\x09`), so the text forwarded for the chunk
`"A\tB"` still contains the control character `\t` — the claim that the
forwarded text has no control characters besides `\n` and `\r` fails. -/
theorem c7_counterexample :
    ¬ (∀ c ∈ processChunk ['A', '\t', 'B'],
        (c.toNat < 0x20 ∨ c.toNat = 0x7f) → c = '\n' ∨ c = '\r') := by
  decide

/-- Characters with equal code points are equal. -/
theorem charToNat_inj {c d : Char} (h : c.toNat = d.toNat) : c = d := by
  rw [← Char.ofNat_toNat c, ← Char.ofNat_toNat d, h]

/-- C7 amended: the clean-up removes exactly the characters of the strip
class — every C0 control except TAB, LF and CR, plus DEL — and replaces
every decoder substitution character `�` with `'?'`; TAB survives. -/
theorem c7_amended (s : List Char) :
    ∀ c ∈ processChunk s,
      (0x20 ≤ c.toNat ∨ c = '\t' ∨ c = '\n' ∨ c = '\r') ∧ c ≠ '\x7f' ∧ c ≠ '�' := by
  intro c hc
  unfold processChunk at hc
  rw [List.mem_filter] at hc
  obtain ⟨hmem, hkeep⟩ := hc
  rw [List.mem_map] at hmem
  obtain ⟨c0, -, hc0⟩ := hmem
  have hrepl : c ≠ '�' := by
    by_cases h0 : c0 = '�'
    · rw [h0] at hc0; simp at hc0; rw [← hc0]; decide
    · simp [h0] at hc0; rw [← hc0]; exact h0
  have hstr : strippedCtl c = false := by
    simpa using hkeep
  unfold strippedCtl at hstr
  simp only [Bool.or_eq_false_iff, decide_eq_false_iff_not, beq_eq_false_iff_ne, ne_eq,
    Bool.and_eq_false_iff] at hstr
  refine ⟨?_, ?_, hrepl⟩
  · by_cases hlt : 0x20 ≤ c.toNat
    · exact Or.inl hlt
    · right
      have h9 : c.toNat = 0x09 ∨ c.toNat = 0x0a ∨ c.toNat = 0x0d := by omega
      rcases h9 with h | h | h
      · exact Or.inl (charToNat_inj h)
      · exact Or.inr (Or.inl (charToNat_inj h))
      · exact Or.inr (Or.inr (charToNat_inj h))
  · intro h7f
    rw [h7f] at hstr
    exact absurd hstr (by decide)

/-- Witness for `c7_amended` on a concrete surviving character. -/
theorem c7_amended_witness :
    (0x20 ≤ 'A'.toNat ∨ 'A' = '\t' ∨ 'A' = '\n' ∨ 'A' = '\r') ∧ 'A' ≠ '\x7f' ∧ 'A' ≠ '�' :=
  c7_amended ['A', '\x01'] 'A' (by decide)

/-! ## Claim C8 — close/cancel idempotence -/

/-- C8 counterexample: the first `closePort` succeeds, but calling it a
second time returns `{success: false, error: '没有打开的串口'}` — an
error result, not a no-op — because `this.port` is already `null`. -/
theorem c8_counterexample :
    (closePort ⟨true, true, true⟩).2.success = true ∧
    (closePort (closePort ⟨true, true, true⟩).1).2.success = false ∧
    (closePort (closePort ⟨true, true, true⟩).1).2.error = some noPortMsg := by
  decide

/-- Every finished `_readLoop` run released the read handle exactly once
(the `finally` clause runs once per loop, on every exit path). -/
theorem readLoopGo_release_once (evs : List ReadEv) (cancelAt : Option ℕ) (i : ℕ)
    (h : (readLoopGo cancelAt i evs).finished = true) :
    (readLoopGo cancelAt i evs).released = 1 := by
  induction evs generalizing i with
  | nil =>
    unfold readLoopGo at h ⊢
    by_cases hk : keepAt cancelAt i = false
    · simp [hk]
    · simp [hk] at h
  | cons e rest ih =>
    unfold readLoopGo at h ⊢
    by_cases hk : keepAt cancelAt i = false
    · simp [hk]
    · cases e with
      | chunk t =>
        simp only [hk, if_false] at h ⊢
        exact ih (i + 1) h
      | done => simp [hk]
      | errorEv => simp [hk]

/-- C8 amended: within one `_readLoop` run the read handle is released
exactly once on every exit path (normal end-of-stream, read error, or
cooperative cancellation), but `closePort` is *not* idempotent: a second
call returns a `{success: false}` error result instead of succeeding as
a no-op. -/
theorem c8_amended :
    (∀ (cancelAt : Option ℕ) (evs : List ReadEv),
       (readLoopRun cancelAt evs).finished = true →
       (readLoopRun cancelAt evs).released = 1) ∧
    (∀ s : SerialSvc, s.port = true →
       (closePort s).2.success = true ∧
       (closePort (closePort s).1).2.success = false) := by
  constructor
  · intro cancelAt evs h
    exact readLoopGo_release_once evs cancelAt 0 h
  · intro s hs
    simp [closePort, hs]

/-- Witness for `c8_amended`: a loop ending at end-of-stream releases
once, and the double close on an open service errors the second time. -/
theorem c8_amended_witness :
    (readLoopRun none [ReadEv.chunk ['a'], ReadEv.done]).released = 1 ∧
    (closePort (closePort ⟨true, false, false⟩).1).2.success = false :=
  ⟨c8_amended.1 none [ReadEv.chunk ['a'], ReadEv.done] (by decide),
   (c8_amended.2 ⟨true, false, false⟩ (by decide)).2⟩

/-! ## Claim C3 — malformed JSON reporting -/

/-- C3 counterexample: the unit `"{x"` starts with `{` and is not valid
JSON; the handler catches the `JSON.parse` failure and only logs it
(line 146) — the caller-supplied `onError` callback is *not* invoked
(the claim's "reported to the error callback" fails), though the frame
is indeed discarded. -/
theorem c3_counterexample :
    (['{', 'x'].head? = some '{') ∧
    (parseJson ['{', 'x']).isNone = true ∧
    (decodeMsg ['{', 'x'] 0).onErrorCalled = false ∧
    (decodeMsg ['{', 'x'] 0).emitted.isNone = true ∧
    (decodeMsg ['{', 'x'] 0).parseErrorLogged = true := by
  decide

/-- C3 amended: a text unit starting with `{` or `[` that is not valid
JSON is caught and logged to the console, the frame is discarded without
any emission, and `onError` is *not* invoked; each message is processed
independently, so subsequent messages continue to be decoded. -/
theorem c3_amended (s : List Char) (A : ℤ)
    (hh : s.head? = some '{' ∨ s.head? = some '[') (hbad : parseJson s = none) :
    decodeMsg s A = { emitted := none, parseErrorLogged := true, onErrorCalled := false } ∧
    ∀ (pre post : List (List Char)),
      (pre ++ s :: post).map (fun m => decodeMsg m A) =
        pre.map (fun m => decodeMsg m A) ++
          decodeMsg s A :: post.map (fun m => decodeMsg m A) := by
  refine ⟨?_, by simp⟩
  unfold decodeMsg
  rw [if_pos hh, hbad]

/-- Witness for `c3_amended` at the malformed unit `"{x"`. -/
theorem c3_amended_witness :
    decodeMsg ['{', 'x'] 0 =
      { emitted := none, parseErrorLogged := true, onErrorCalled := false } :=
  (c3_amended ['{', 'x'] 0 (by decide) rfl).1

/-! ## Claim C2 — string amplitudes in envelopes -/

def envText35 : List Char :=
  "\x7b\"type\":\"earthquake-data\",\"payload\":\x7b\"amplitude\":\"3.5\"\x7d\x7d".toList

def envTextAbc : List Char :=
  "\x7b\"type\":\"earthquake-data\",\"payload\":\x7b\"amplitude\":\"abc\"\x7d\x7d".toList

/-- C2 counterexample: an envelope whose payload amplitude is the string
`"abc"` (for which `parseFloat` yields `NaN`) is emitted with the
amplitude *still the original string* — the claim's "never left as text"
fails. -/
theorem c2_counterexample :
    envAmpStr (decodeMsg envTextAbc 0) = some ('a' :: 'b' :: 'c' :: []) ∧
    envAmpNum (decodeMsg envTextAbc 0) = none := by
  constructor <;> rfl

/-- Reading back the field just written. -/
theorem getField_setField (fs : List (List Char × JVal)) (k : List Char) (v : JVal) :
    getField (setField fs k v) k = some v := by
  unfold setField
  by_cases hany : fs.any (fun p => p.1 = k)
  · rw [if_pos hany]
    unfold getField
    rw [← List.map_reverse]
    rw [← List.any_reverse] at hany
    generalize fs.reverse = l at hany ⊢
    induction l with
    | nil => simp at hany
    | cons p r ih =>
      by_cases hp : p.1 = k
      · simp [List.find?_cons, hp]
      · have hd : (decide (p.1 = k)) = false := decide_eq_false hp
        simp only [List.any_cons, hd, Bool.false_or] at hany
        simp only [List.map_cons, List.find?_cons, if_neg hp, hd]
        exact ih hany
  · rw [if_neg hany]
    unfold getField
    simp [List.find?_cons]

/-- C2 amended: a string amplitude is coerced to a number exactly when
`parseFloat` succeeds on it — the example envelope with `"3.5"` is
emitted with the number `3.5` — but a string amplitude on which
`parseFloat` yields `NaN` is left unchanged as text. -/
theorem c2_amended :
    (envAmpNum (decodeMsg envText35 0)).map JsNum.toRat = some ((7 : ℚ) / 2) ∧
    (∀ (fs : List (List Char × JVal)) (str : List Char) (q : JsNum),
       getField fs ampKey = some (JVal.jstr str) → parseFloatNum str = some q →
       getField (processEnvelope (JVal.jobj fs)) ampKey = some (JVal.jnum q)) ∧
    (∀ (fs : List (List Char × JVal)) (str : List Char),
       getField fs ampKey = some (JVal.jstr str) → parseFloatNum str = none →
       processEnvelope (JVal.jobj fs) = fs) := by
  have h35 : envAmpNum (decodeMsg envText35 0) = some ⟨35, -1⟩ := by decide
  refine ⟨?_, ?_, ?_⟩
  · rw [h35]
    norm_num [JsNum.toRat]
  · intro fs str q hg hq
    unfold processEnvelope
    simp only [spreadFields, hg, hq]
    exact getField_setField fs ampKey (JVal.jnum q)
  · intro fs str hg hq
    unfold processEnvelope
    simp only [spreadFields, hg, hq]

/-- Witness for `c2_amended` on a concrete payload field list. -/
theorem c2_amended_witness :
    getField (processEnvelope (JVal.jobj [(ampKey, JVal.jstr ('3' :: '.' :: '5' :: []))]))
        ampKey = some (JVal.jnum ⟨35, -1⟩) :=
  c2_amended.2.1 [(ampKey, JVal.jstr ('3' :: '.' :: '5' :: []))] ('3' :: '.' :: '5' :: [])
    ⟨35, -1⟩ rfl (by rfl)

/-! ## Timestamp synthesizer lemmas -/

/-- The amplitudes of a channel's samples are exactly the parseable
tokens' values, in order. -/
theorem mkPointsFrom_amps (n : ℕ) (A : ℤ) (wt : Option Char) (md : SampleMeta)
    (ps : List (List Char)) (i : ℕ) :
    (mkPointsFrom n A wt md i ps).map (·.amplitude) = ps.filterMap parseFloatNum := by
  induction ps generalizing i with
  | nil => rfl
  | cons p rest ih =>
    unfold mkPointsFrom
    cases hq : parseFloatNum p with
    | none => simp [List.filterMap_cons, hq, ih]
    | some q => simp [List.filterMap_cons, hq, ih]

/-- Every sample of a channel carries the channel tag, the frame
metadata, the token count as `batchSize`, and the backdated timestamp
determined by its `batchIndex`. -/
theorem mkPointsFrom_mem (n : ℕ) (A : ℤ) (wt : Option Char) (md : SampleMeta)
    (ps : List (List Char)) (i : ℕ) :
    ∀ s ∈ mkPointsFrom n A wt md i ps,
      s.waveformType = wt ∧ s.meta = md ∧ s.source = extSource ∧ s.raw = true ∧
      s.batchSize = some n ∧
      ∃ j, s.batchIndex = some j ∧ i ≤ j ∧
        s.timestamp = A - ((n : ℤ) - 1 - (j : ℤ)) * 10 := by
  induction ps generalizing i with
  | nil => intro s hs; exact absurd hs (by simp [mkPointsFrom])
  | cons p rest ih =>
    intro s hs
    unfold mkPointsFrom at hs
    cases hq : parseFloatNum p with
    | none =>
      rw [hq] at hs
      obtain ⟨h1, h2, h3, h4, h5, j, hj⟩ := ih (i + 1) s hs
      exact ⟨h1, h2, h3, h4, h5, j, hj.1, by omega, hj.2.2⟩
    | some q =>
      rw [hq] at hs
      rcases List.mem_cons.mp hs with rfl | hs2
      · exact ⟨rfl, rfl, rfl, rfl, rfl, i, rfl, Nat.le_refl i, rfl⟩
      · obtain ⟨h1, h2, h3, h4, h5, j, hj⟩ := ih (i + 1) s hs2
        exact ⟨h1, h2, h3, h4, h5, j, hj.1, by omega, hj.2.2⟩

/-- When every token parses, the channel yields one sample per token. -/
theorem mkPointsFrom_length (n : ℕ) (A : ℤ) (wt : Option Char) (md : SampleMeta)
    (ps : List (List Char)) (i : ℕ) (h : ∀ p ∈ ps, (parseFloatNum p).isSome) :
    (mkPointsFrom n A wt md i ps).length = ps.length := by
  induction ps generalizing i with
  | nil => rfl
  | cons p rest ih =>
    unfold mkPointsFrom
    cases hq : parseFloatNum p with
    | none =>
      have := h p (by simp)
      rw [hq] at this
      exact absurd this (by simp)
    | some q =>
      simp only [List.length_cons]
      rw [ih (i + 1) (fun p hp => h p (by simp [hp]))]

/-- When every token parses, the `k`-th sample of the channel is the
`k`-th token's, with `batchIndex = i + k` and the backdated timestamp. -/
theorem mkPointsFrom_get (n : ℕ) (A : ℤ) (wt : Option Char) (md : SampleMeta)
    (ps : List (List Char)) (i : ℕ) (h : ∀ p ∈ ps, (parseFloatNum p).isSome)
    (k : ℕ) (hk : k < (mkPointsFrom n A wt md i ps).length) :
    ((mkPointsFrom n A wt md i ps).get ⟨k, hk⟩).batchIndex = some (i + k) ∧
    ((mkPointsFrom n A wt md i ps).get ⟨k, hk⟩).timestamp =
      A - ((n : ℤ) - 1 - ((i : ℤ) + (k : ℤ))) * 10 := by
  induction ps generalizing i k with
  | nil => simp [mkPointsFrom] at hk
  | cons p rest ih =>
    cases hq : parseFloatNum p with
    | none =>
      have := h p (by simp)
      rw [hq] at this
      exact absurd this (by simp)
    | some q =>
      have hexp : mkPointsFrom n A wt md i (p :: rest) =
          { amplitude := q, timestamp := A - ((n : ℤ) - 1 - (i : ℤ)) * 10,
            batchIndex := some i, batchSize := some n, waveformType := wt, meta := md } ::
          mkPointsFrom n A wt md (i + 1) rest := by
        conv_lhs => unfold mkPointsFrom; rw [hq]
      cases k with
      | zero =>
        refine ⟨?_, ?_⟩ <;>
          simp [hexp, List.get]
      | succ m =>
        have hm : m < (mkPointsFrom n A wt md (i + 1) rest).length := by
          have := hk
          rw [hexp] at this
          simpa using this
        have hrec := ih (i + 1) (fun p hp => h p (by simp [hp])) m hm
        have hg : (mkPointsFrom n A wt md i (p :: rest)).get ⟨m + 1, hk⟩ =
            (mkPointsFrom n A wt md (i + 1) rest).get ⟨m, hm⟩ := by
          rw [List.get_of_eq hexp]
          rfl
        rw [hg]
        refine ⟨?_, ?_⟩
        · rw [hrec.1]
          congr 1
          omega
        · rw [hrec.2]
          have : (i : ℤ) + ((m : ℤ) + 1) = ((i : ℤ) + 1) + (m : ℤ) := by ring
          rw [show ((m + 1 : ℕ) : ℤ) = (m : ℤ) + 1 from by push_cast; ring]
          rw [this]
          push_cast
          ring_nf

/-! ## Channel-splitting lemmas -/

/-- A `split` never yields an empty part list. -/
theorem splitOn2_ne_nil (a b : Char) (s : List Char) : splitOn2 a b s ≠ [] := by
  induction s using splitOn2.induct a b with
  | case1 => simp [splitOn2]
  | case2 c => simp [splitOn2]
  | case3 c d r hab ih => simp [splitOn2, hab]
  | case4 c d r hab hsp ih => exact absurd hsp ih
  | case5 c d r hab t ts hsp ih =>
    unfold splitOn2
    rw [if_neg hab, hsp]
    simp

/-- The separator pair occurs in any list containing it. -/
theorem hasPair_of_append_sep (a b : Char) (u v : List Char) :
    hasPair a b (u ++ a :: b :: v) = true := by
  induction u with
  | nil => simp [hasPair]
  | cons c r ih => simp [hasPair, ih]

/-- No pair whose first component is absent. -/
theorem hasPair_false_of_not_mem (a b : Char) (u : List Char) (h : a ∉ u) :
    hasPair a b u = false := by
  induction u with
  | nil => rfl
  | cons c r ih =>
    unfold hasPair
    rw [ih (fun hm => h (List.mem_cons_of_mem c hm))]
    have hc : c ≠ a := fun e => h (e ▸ List.mem_cons_self c r)
    simp [hc]

/-- Membership from `getLast?`. -/
theorem mem_of_getLast?_some {l : List Char} {a : Char} (h : l.getLast? = some a) :
    a ∈ l := by
  obtain ⟨hne, ha⟩ := List.mem_getLast?_eq_getLast (show a ∈ l.getLast? from h)
  exact ha ▸ List.getLast_mem hne

/-- Absence of the pair is preserved by append when the junction cannot
form it. -/
theorem hasPair_append_false (a b : Char) (u v : List Char)
    (hu : hasPair a b u = false) (hv : hasPair a b v = false)
    (hb : u.getLast? = some a → v.head? ≠ some b) :
    hasPair a b (u ++ v) = false := by
  induction u with
  | nil => simpa using hv
  | cons c r ih =>
    cases r with
    | nil =>
      unfold hasPair
      have h1 : ¬(c = a ∧ v.head? = some b) := by
        rintro ⟨e1, e2⟩
        exact hb (by rw [e1]; rfl) e2
      rcases Decidable.em (c = a) with he | he
      · have h2 : v.head? ≠ some b := fun e2 => h1 ⟨he, e2⟩
        simp [h2, hv]
      · simp [he, hv]
    | cons d r2 =>
      have hu1 : hasPair a b (d :: r2) = false := by
        simp only [hasPair] at hu
        exact (Bool.or_eq_false_iff.mp hu).2
      have hcd : (c == a && ((d :: r2).head? == some b)) = false := by
        simp only [hasPair] at hu
        exact (Bool.or_eq_false_iff.mp hu).1
      show hasPair a b (c :: (d :: r2 ++ v)) = false
      simp only [hasPair]
      rw [Bool.or_eq_false_iff]
      refine ⟨by simpa using hcd, ?_⟩
      exact ih hu1 (fun hgl => hb (by rw [List.getLast?_cons_cons]; exact hgl))

/-- `split` on a pair-free list yields the whole list. -/
theorem splitOn2_of_no_pair (a b : Char) (s : List Char)
    (h : hasPair a b s = false) : splitOn2 a b s = [s] := by
  induction s using splitOn2.induct a b with
  | case1 => rfl
  | case2 c => rfl
  | case3 c d r hab ih =>
    exfalso
    unfold hasPair at h
    simp [hab.1, hab.2] at h
  | case4 c d r hab hsp ih => exact absurd hsp (splitOn2_ne_nil a b (d :: r))
  | case5 c d r hab t ts hsp ih =>
    have h2 : hasPair a b (d :: r) = false := by
      unfold hasPair at h
      exact (Bool.or_eq_false_iff.mp h).2
    conv_lhs => unfold splitOn2
    rw [if_neg hab, ih h2]

/-- `split` around the first (and only junction-made) occurrence of the
separator pair. -/
theorem splitOn2_append (a b : Char) (hab : a ≠ b) (u v : List Char)
    (hu : hasPair a b u = false) :
    splitOn2 a b (u ++ a :: b :: v) = u :: splitOn2 a b v := by
  induction u with
  | nil =>
    show splitOn2 a b (a :: b :: v) = [] :: splitOn2 a b v
    conv_lhs => unfold splitOn2
    rw [if_pos (⟨rfl, rfl⟩ : a = a ∧ b = b)]
  | cons c r ih =>
    cases r with
    | nil =>
      show splitOn2 a b (c :: a :: b :: v) = [c] :: splitOn2 a b v
      conv_lhs => unfold splitOn2
      rw [if_neg (fun hcd => hab hcd.2)]
      rw [show splitOn2 a b (a :: b :: v) = [] :: splitOn2 a b v from by
        conv_lhs => unfold splitOn2
        rw [if_pos (⟨rfl, rfl⟩ : a = a ∧ b = b)]]
    | cons d r2 =>
      have hu2 : hasPair a b (d :: r2) = false := by
        unfold hasPair at hu
        exact (Bool.or_eq_false_iff.mp hu).2
      have hcd : ¬(c = a ∧ d = b) := by
        rintro ⟨e1, e2⟩
        unfold hasPair at hu
        simp [e1, e2] at hu
      show splitOn2 a b (c :: d :: (r2 ++ a :: b :: v)) = (c :: d :: r2) :: splitOn2 a b v
      conv_lhs => unfold splitOn2
      rw [if_neg hcd]
      rw [show d :: (r2 ++ a :: b :: v) = (d :: r2) ++ a :: b :: v from rfl, ih hu2]

/-! ## Join/tokenize lemmas -/

/-- Splitting a comma-join on commas recovers the parts (JS
`s.split(',')` is `List.splitOn ','`). -/
theorem splitOn_joinComma (ts : List (List Char)) (h : ∀ t ∈ ts, ',' ∉ t)
    (hne : ts ≠ []) : (joinComma ts).splitOn ',' = ts := by
  induction ts with
  | nil => exact absurd rfl hne
  | cons t rest ih =>
    cases rest with
    | nil =>
      show t.splitOn ',' = [t]
      exact List.splitOnP_eq_single _ _
        (fun x hx hp => h t (by simp) (by rw [beq_iff_eq] at hp; exact hp ▸ hx))
    | cons t2 rest2 =>
      show (t ++ ',' :: joinComma (t2 :: rest2)).splitOn ',' = t :: t2 :: rest2
      have hfirst := List.splitOnP_first (fun x => x == ',') t
        (fun x hx hp => h t (by simp) (by rw [beq_iff_eq] at hp; exact hp ▸ hx))
        ',' (by simp) (joinComma (t2 :: rest2))
      show List.splitOnP (fun x => x == ',') (t ++ ',' :: joinComma (t2 :: rest2)) = _
      rw [hfirst]
      have := ih (fun u hu => h u (by simp [hu])) (by simp)
      exact congrArg (t :: ·) this

/-- The head of a join starts the first part. -/
theorem joinComma_head (t : List Char) (ts : List (List Char)) (ht : t ≠ []) :
    (joinComma (t :: ts)).head? = t.head? := by
  cases t with
  | nil => exact absurd rfl ht
  | cons c r => cases ts <;> rfl

/-- A comma-join of comma-free parts whose heads avoid `b` contains no
`",{b}"` pair. -/
theorem hasPair_joinComma (b : Char) (ts : List (List Char))
    (h : ∀ t ∈ ts, ',' ∉ t ∧ t ≠ [] ∧ t.head? ≠ some b) :
    hasPair ',' b (joinComma ts) = false := by
  induction ts with
  | nil => rfl
  | cons t rest ih =>
    cases rest with
    | nil =>
      show hasPair ',' b t = false
      exact hasPair_false_of_not_mem ',' b t (h t (by simp)).1
    | cons t2 rest2 =>
      show hasPair ',' b (t ++ ',' :: joinComma (t2 :: rest2)) = false
      apply hasPair_append_false
      · exact hasPair_false_of_not_mem ',' b t (h t (by simp)).1
      · show hasPair ',' b (',' :: joinComma (t2 :: rest2)) = false
        simp only [hasPair]
        rw [Bool.or_eq_false_iff]
        constructor
        · rw [joinComma_head t2 rest2 (h t2 (by simp)).2.1]
          have := (h t2 (by simp)).2.2
          simp [this]
        · exact ih (fun u hu => h u (by simp [hu]))
      · intro hgl
        exact absurd (mem_of_getLast?_some hgl) (h t (by simp)).1

/-- Tokenizing a comma-join of trimmed, non-empty, comma-free parts
recovers exactly the parts. -/
theorem toTokens_joinComma (ts : List (List Char))
    (h : ∀ t ∈ ts, ',' ∉ t ∧ trimL t = t ∧ t ≠ []) :
    toTokens (joinComma ts) = ts := by
  cases ts with
  | nil => rfl
  | cons t rest =>
    unfold toTokens
    rw [splitOn_joinComma (t :: rest) (fun u hu => (h u hu).1) (by simp)]
    have hmap : (t :: rest).map trimL = t :: rest := by
      have hc := List.map_congr_left (l := t :: rest) (f := trimL) (g := id)
        (fun u hu => (h u hu).2.1)
      simpa using hc
    rw [hmap]
    exact List.filter_eq_self.mpr (fun u hu => by simp [(h u hu).2.2])

/-! ## Metadata-prefix lemmas -/

/-- `takeWhile` stops exactly at the first failing element. -/
theorem takeWhile_all_append (p : Char → Bool) (u : List Char)
    (hu : ∀ x ∈ u, p x = true) (c : Char) (hc : p c = false) (v : List Char) :
    (u ++ c :: v).takeWhile p = u := by
  induction u with
  | nil => simp [List.takeWhile_cons, hc]
  | cons d r ih =>
    rw [List.cons_append, List.takeWhile_cons, if_pos (hu d (by simp))]
    rw [ih (fun x hx => hu x (by simp [hx]))]

/-- The `^T\d+H\d+V\d+,` prefix test succeeds on a well-formed header and
yields the three captured values and the text after the first comma. -/
theorem metaHeader_build (td hd vd rest : List Char)
    (ht : td ≠ [] ∧ ∀ c ∈ td, c.isDigit = true)
    (hh : hd ≠ [] ∧ ∀ c ∈ hd, c.isDigit = true)
    (hv : vd ≠ [] ∧ ∀ c ∈ vd, c.isDigit = true) :
    metaHeader ('T' :: (td ++ 'H' :: (hd ++ 'V' :: (vd ++ ',' :: rest)))) =
      some (digitsToNat td, digitsToNat hd, digitsToNat vd, rest) := by
  show (if ('T' : Char) = 'T' then _ else none) = _
  rw [if_pos rfl]
  rw [takeWhile_all_append Char.isDigit td ht.2 'H' (by decide) _]
  rw [if_neg ht.1]
  rw [List.drop_left td ('H' :: (hd ++ 'V' :: (vd ++ ',' :: rest)))]
  show (if ('H' : Char) = 'H' then _ else none) = _
  rw [if_pos rfl]
  rw [takeWhile_all_append Char.isDigit hd hh.2 'V' (by decide) _]
  rw [if_neg hh.1]
  rw [List.drop_left hd ('V' :: (vd ++ ',' :: rest))]
  show (if ('V' : Char) = 'V' then _ else none) = _
  rw [if_pos rfl]
  rw [takeWhile_all_append Char.isDigit vd hv.2 ',' (by decide) _]
  rw [if_neg hv.1]
  rw [List.drop_left vd (',' :: rest)]
  simp

/-- When the unit does not begin with `T`, the prefix test fails and the
message is left intact. -/
theorem metaHeader_none (s : List Char) (h : s.head? ≠ some 'T') :
    metaHeader s = none := by
  cases s with
  | nil => rfl
  | cons c r =>
    have hc : c ≠ 'T' := fun e => h (by rw [e]; rfl)
    show (if c = 'T' then _ else none) = none
    rw [if_neg hc]

/-! ## Decode-path lemmas -/

/-- `emitBatch` is observably the identity on the delivered sample list. -/
theorem emittedList_emitBatch (out : List Sample) :
    emittedList (emitBatch out) = out := by
  unfold emitBatch
  by_cases h : out.length > 0
  · rw [if_pos h]; rfl
  · rw [if_neg h]
    have : out = [] := List.length_eq_zero.mp (by omega)
    rw [this]; rfl

/-- A leading character other than the pair's first component does not
create the pair. -/
theorem hasPair_cons_of_ne (a b c : Char) (s : List Char) (h : c ≠ a) :
    hasPair a b (c :: s) = hasPair a b s := by
  simp [hasPair, h]

/-- A channel token of the wire grammar: non-empty, already trimmed,
comma-free, and not starting with a channel marker that the substring
search would misread. -/
def tokOk (t : List Char) : Prop :=
  t ≠ [] ∧ trimL t = t ∧ ',' ∉ t ∧ t.head? ≠ some 'Y' ∧ t.head? ≠ some 'Z'

/-- A token of the plain (markerless) wire form: additionally must not
start with any of the characters that select another decode branch. -/
def plainTok (t : List Char) : Prop :=
  t ≠ [] ∧ trimL t = t ∧ ',' ∉ t ∧
  t.head? ≠ some '{' ∧ t.head? ≠ some '[' ∧ t.head? ≠ some 'T' ∧
  t.head? ≠ some 'X' ∧ t.head? ≠ some 'Y' ∧ t.head? ≠ some 'Z'

instance (t : List Char) : Decidable (tokOk t) := by
  unfold tokOk
  infer_instance

instance (t : List Char) : Decidable (plainTok t) := by
  unfold plainTok
  infer_instance

/-- The triple-channel decode path: on the wire form
`T{t}H{h}V{v},X{xs},Y{ys},Z{zs}` the handler removes the metadata
prefix, splits at the unique `",Z"` and `",Y"` junctions, and produces
the three channels' samples from the same arrival instant. -/
theorem decodeMsg_buildTriple (td hd vd : List Char) (xs ys zs : List (List Char))
    (A : ℤ)
    (ht : td ≠ [] ∧ ∀ c ∈ td, c.isDigit = true)
    (hh : hd ≠ [] ∧ ∀ c ∈ hd, c.isDigit = true)
    (hv : vd ≠ [] ∧ ∀ c ∈ vd, c.isDigit = true)
    (hx : ∀ t ∈ xs, tokOk t) (hy : ∀ t ∈ ys, tokOk t) (hz : ∀ t ∈ zs, tokOk t) :
    decodeMsg (buildTriple td hd vd xs ys zs) A =
      emitBatch
        (mkPoints xs A (some 'X') (md3 ⟨some (digitsToNat td), some (digitsToNat hd),
            some (digitsToNat vd), none, false, false⟩) ++
         mkPoints ys A (some 'Y') (md3 ⟨some (digitsToNat td), some (digitsToNat hd),
            some (digitsToNat vd), none, false, false⟩) ++
         mkPoints zs A (some 'Z') (md3 ⟨some (digitsToNat td), some (digitsToNat hd),
            some (digitsToNat vd), none, false, false⟩)) := by
  have hshape : buildTriple td hd vd xs ys zs =
      'T' :: (td ++ 'H' :: (hd ++ 'V' :: (vd ++ ',' ::
        ('X' :: (joinComma xs ++ ',' :: 'Y' ::
          (joinComma ys ++ ',' :: 'Z' :: joinComma zs)))))) := by
    unfold buildTriple
    simp
  rw [hshape]
  unfold decodeMsg
  rw [if_neg (by simp)]
  rw [if_pos (by simp)]
  unfold decodeComma
  rw [metaHeader_build td hd vd _ ht hh hv]
  show emitBatch (decodeChannels _ _ _) = _
  unfold decodeChannels
  simp only [List.head?_cons]
  rw [if_pos trivial]
  have hjx : hasPair ',' 'Z' (joinComma xs) = false :=
    hasPair_joinComma 'Z' xs (fun t htm => ⟨(hx t htm).2.2.1, (hx t htm).1, (hx t htm).2.2.2.2⟩)
  have hjy : hasPair ',' 'Z' (joinComma ys) = false :=
    hasPair_joinComma 'Z' ys (fun t htm => ⟨(hy t htm).2.2.1, (hy t htm).1, (hy t htm).2.2.2.2⟩)
  have hjz : hasPair ',' 'Z' (joinComma zs) = false :=
    hasPair_joinComma 'Z' zs (fun t htm => ⟨(hz t htm).2.2.1, (hz t htm).1, (hz t htm).2.2.2.2⟩)
  have hjxY : hasPair ',' 'Y' (joinComma xs) = false :=
    hasPair_joinComma 'Y' xs (fun t htm => ⟨(hx t htm).2.2.1, (hx t htm).1, (hx t htm).2.2.2.1⟩)
  have hjyY : hasPair ',' 'Y' (joinComma ys) = false :=
    hasPair_joinComma 'Y' ys (fun t htm => ⟨(hy t htm).2.2.1, (hy t htm).1, (hy t htm).2.2.2.1⟩)
  have hnoZleft : hasPair ',' 'Z'
      ('X' :: (joinComma xs ++ ',' :: 'Y' :: joinComma ys)) = false := by
    rw [hasPair_cons_of_ne ',' 'Z' 'X' _ (by decide)]
    apply hasPair_append_false ',' 'Z' _ _ hjx
    · show hasPair ',' 'Z' (',' :: 'Y' :: joinComma ys) = false
      simp only [hasPair]
      rw [hjy]
      simp
    · intro _
      simp
  have hsplitZ : splitOn2 ',' 'Z'
      ('X' :: (joinComma xs ++ ',' :: 'Y' :: (joinComma ys ++ ',' :: 'Z' :: joinComma zs))) =
      ('X' :: (joinComma xs ++ ',' :: 'Y' :: joinComma ys)) :: [joinComma zs] := by
    rw [show 'X' :: (joinComma xs ++ ',' :: 'Y' :: (joinComma ys ++ ',' :: 'Z' :: joinComma zs)) =
        ('X' :: (joinComma xs ++ ',' :: 'Y' :: joinComma ys)) ++ ',' :: 'Z' :: joinComma zs
      from by simp]
    rw [splitOn2_append ',' 'Z' (by decide) _ _ hnoZleft]
    rw [splitOn2_of_no_pair ',' 'Z' _ hjz]
  have hpairZ : hasPair ',' 'Z'
      ('X' :: (joinComma xs ++ ',' :: 'Y' :: (joinComma ys ++ ',' :: 'Z' :: joinComma zs))) = true := by
    rw [show 'X' :: (joinComma xs ++ ',' :: 'Y' :: (joinComma ys ++ ',' :: 'Z' :: joinComma zs)) =
        ('X' :: (joinComma xs ++ ',' :: 'Y' :: joinComma ys)) ++ ',' :: 'Z' :: joinComma zs
      from by simp]
    exact hasPair_of_append_sep ',' 'Z' _ _
  rw [if_pos hpairZ]
  simp only [hsplitZ]
  have hnoYx : hasPair ',' 'Y' ('X' :: joinComma xs) = false := by
    rw [hasPair_cons_of_ne ',' 'Y' 'X' _ (by decide)]
    exact hjxY
  have hsplitY : splitOn2 ',' 'Y' ('X' :: (joinComma xs ++ ',' :: 'Y' :: joinComma ys)) =
      ('X' :: joinComma xs) :: [joinComma ys] := by
    rw [show 'X' :: (joinComma xs ++ ',' :: 'Y' :: joinComma ys) =
        ('X' :: joinComma xs) ++ ',' :: 'Y' :: joinComma ys from by simp]
    rw [splitOn2_append ',' 'Y' (by decide) _ _ hnoYx]
    rw [splitOn2_of_no_pair ',' 'Y' _ hjyY]
  simp only [hsplitY]
  rw [show List.drop 1 ('X' :: joinComma xs) = joinComma xs from rfl]
  rw [toTokens_joinComma xs (fun t htm => ⟨(hx t htm).2.2.1, (hx t htm).2.1, (hx t htm).1⟩)]
  rw [toTokens_joinComma ys (fun t htm => ⟨(hy t htm).2.2.1, (hy t htm).2.1, (hy t htm).1⟩)]
  rw [toTokens_joinComma zs (fun t htm => ⟨(hz t htm).2.2.1, (hz t htm).2.1, (hz t htm).1⟩)]

/-! ## Claim C4 — triple-channel frame decode -/

/-- C4: decoding the wire form `T{t}H{h}V{v},X{xs},Y{ys},Z{zs}` built
from numeric tokens emits exactly `len(xs)+len(ys)+len(zs)` samples —
`len(xs)` tagged `X`, `len(ys)` tagged `Y`, `len(zs)` tagged `Z` — and
every emitted sample's metadata carries `temperature=t`, `humidity=h`,
`voltage=v`. -/
theorem c4_triple_frame (td hd vd : List Char) (xs ys zs : List (List Char)) (A : ℤ)
    (ht : td ≠ [] ∧ ∀ c ∈ td, c.isDigit = true)
    (hh : hd ≠ [] ∧ ∀ c ∈ hd, c.isDigit = true)
    (hv : vd ≠ [] ∧ ∀ c ∈ vd, c.isDigit = true)
    (hx : ∀ t ∈ xs, tokOk t ∧ (parseFloatNum t).isSome)
    (hy : ∀ t ∈ ys, tokOk t ∧ (parseFloatNum t).isSome)
    (hz : ∀ t ∈ zs, tokOk t ∧ (parseFloatNum t).isSome) :
    (emittedList (decodeMsg (buildTriple td hd vd xs ys zs) A)).length =
        xs.length + ys.length + zs.length ∧
    (emittedList (decodeMsg (buildTriple td hd vd xs ys zs) A)).countP
        (fun s => s.waveformType == some 'X') = xs.length ∧
    (emittedList (decodeMsg (buildTriple td hd vd xs ys zs) A)).countP
        (fun s => s.waveformType == some 'Y') = ys.length ∧
    (emittedList (decodeMsg (buildTriple td hd vd xs ys zs) A)).countP
        (fun s => s.waveformType == some 'Z') = zs.length ∧
    ∀ s ∈ emittedList (decodeMsg (buildTriple td hd vd xs ys zs) A),
      s.meta.temperature = some (digitsToNat td) ∧
      s.meta.humidity = some (digitsToNat hd) ∧
      s.meta.voltage = some (digitsToNat vd) := by
  rw [decodeMsg_buildTriple td hd vd xs ys zs A ht hh hv
    (fun t htm => (hx t htm).1) (fun t htm => (hy t htm).1) (fun t htm => (hz t htm).1)]
  rw [emittedList_emitBatch]
  have hlx := mkPointsFrom_length xs.length A (some 'X') (md3 ⟨some (digitsToNat td), some (digitsToNat hd), some (digitsToNat vd),
      none, false, false⟩) xs 0 (fun t htm => (hx t htm).2)
  have hly := mkPointsFrom_length ys.length A (some 'Y') (md3 ⟨some (digitsToNat td), some (digitsToNat hd), some (digitsToNat vd),
      none, false, false⟩) ys 0 (fun t htm => (hy t htm).2)
  have hlz := mkPointsFrom_length zs.length A (some 'Z') (md3 ⟨some (digitsToNat td), some (digitsToNat hd), some (digitsToNat vd),
      none, false, false⟩) zs 0 (fun t htm => (hz t htm).2)
  have memx := mkPointsFrom_mem xs.length A (some 'X')
    (md3 ⟨some (digitsToNat td), some (digitsToNat hd), some (digitsToNat vd),
      none, false, false⟩) xs 0
  have memy := mkPointsFrom_mem ys.length A (some 'Y')
    (md3 ⟨some (digitsToNat td), some (digitsToNat hd), some (digitsToNat vd),
      none, false, false⟩) ys 0
  have memz := mkPointsFrom_mem zs.length A (some 'Z')
    (md3 ⟨some (digitsToNat td), some (digitsToNat hd), some (digitsToNat vd),
      none, false, false⟩) zs 0
  refine ⟨?_, ?_, ?_, ?_, ?_⟩
  · simp only [List.length_append]
    unfold mkPoints
    rw [hlx, hly, hlz]
  · rw [List.countP_append, List.countP_append]
    rw [List.countP_eq_length.mpr (fun a ha => by rw [(memx a ha).1]; rfl)]
    rw [List.countP_eq_zero.mpr (fun a ha => by rw [(memy a ha).1]; decide)]
    rw [List.countP_eq_zero.mpr (fun a ha => by rw [(memz a ha).1]; decide)]
    unfold mkPoints
    rw [hlx]
    omega
  · rw [List.countP_append, List.countP_append]
    rw [List.countP_eq_zero.mpr (fun a ha => by rw [(memx a ha).1]; decide)]
    rw [List.countP_eq_length.mpr (fun a ha => by rw [(memy a ha).1]; rfl)]
    rw [List.countP_eq_zero.mpr (fun a ha => by rw [(memz a ha).1]; decide)]
    unfold mkPoints
    rw [hly]
    omega
  · rw [List.countP_append, List.countP_append]
    rw [List.countP_eq_zero.mpr (fun a ha => by rw [(memx a ha).1]; decide)]
    rw [List.countP_eq_zero.mpr (fun a ha => by rw [(memy a ha).1]; decide)]
    rw [List.countP_eq_length.mpr (fun a ha => by rw [(memz a ha).1]; rfl)]
    unfold mkPoints
    rw [hlz]
    omega
  · intro s hs
    rcases List.mem_append.mp hs with hs1 | hs3
    · rcases List.mem_append.mp hs1 with hsx | hsy
      · rw [(memx s hsx).2.1]; exact ⟨rfl, rfl, rfl⟩
      · rw [(memy s hsy).2.1]; exact ⟨rfl, rfl, rfl⟩
    · rw [(memz s hs3).2.1]; exact ⟨rfl, rfl, rfl⟩

/-- Witness for `c4_triple_frame` on `T25H60V90,X1.0,2,Y0.5,Z2.1,2.2`. -/
theorem c4_triple_frame_witness :
    (emittedList (decodeMsg (buildTriple ("25".toList) ("60".toList) ("90".toList)
        [("1.0".toList), ("2".toList)] [("0.5".toList)]
        [("2.1".toList), ("2.2".toList)]) 0)).length = 2 + 1 + 2 :=
  (c4_triple_frame ("25".toList) ("60".toList) ("90".toList)
    [("1.0".toList), ("2".toList)] [("0.5".toList)] [("2.1".toList), ("2.2".toList)] 0
    (by decide) (by decide) (by decide) (by decide) (by decide) (by decide)).1

/-! ## Claim C10 — tokens after a second `,Y` are dropped -/

/-- C10: when an `X`-marked message contains `,Y` twice (and no `,Z`),
`parts[1]` of the split is the text between the first and second `,Y`,
so only those tokens become the `Y` channel; `parts[2]` — everything
after the second `,Y` — is never read and its tokens appear in no
channel's output. -/
theorem c10_second_y_dropped (u v w : List Char) (A : ℤ)
    (hu : hasPair ',' 'Y' u = false) (hvv : hasPair ',' 'Y' v = false)
    (hz : hasPair ',' 'Z' ('X' :: (u ++ ',' :: 'Y' :: (v ++ ',' :: 'Y' :: w))) = false) :
    emittedList (decodeMsg ('X' :: (u ++ ',' :: 'Y' :: (v ++ ',' :: 'Y' :: w))) A) =
      mkPoints (toTokens u) A (some 'X') (md2 {}) ++
      mkPoints (toTokens v) A (some 'Y') (md2 {}) := by
  have hmh : metaHeader ('X' :: (u ++ ',' :: 'Y' :: (v ++ ',' :: 'Y' :: w))) = none :=
    metaHeader_none _ (by simp)
  unfold decodeMsg
  rw [if_neg (by simp)]
  rw [if_pos (by simp)]
  unfold decodeComma
  simp only [hmh]
  rw [emittedList_emitBatch]
  unfold decodeChannels
  simp only [List.head?_cons]
  rw [if_pos trivial]
  rw [if_neg (by rw [hz]; simp)]
  have hpairY : hasPair ',' 'Y' ('X' :: (u ++ ',' :: 'Y' :: (v ++ ',' :: 'Y' :: w))) = true := by
    rw [show 'X' :: (u ++ ',' :: 'Y' :: (v ++ ',' :: 'Y' :: w)) =
        ('X' :: u) ++ ',' :: 'Y' :: (v ++ ',' :: 'Y' :: w) from by simp]
    exact hasPair_of_append_sep ',' 'Y' _ _
  rw [if_pos hpairY]
  have hsplit : splitOn2 ',' 'Y' ('X' :: (u ++ ',' :: 'Y' :: (v ++ ',' :: 'Y' :: w))) =
      ('X' :: u) :: v :: splitOn2 ',' 'Y' w := by
    rw [show 'X' :: (u ++ ',' :: 'Y' :: (v ++ ',' :: 'Y' :: w)) =
        ('X' :: u) ++ ',' :: 'Y' :: (v ++ ',' :: 'Y' :: w) from by simp]
    rw [splitOn2_append ',' 'Y' (by decide) _ _
      (by rw [hasPair_cons_of_ne ',' 'Y' 'X' u (by decide)]; exact hu)]
    rw [splitOn2_append ',' 'Y' (by decide) v w hvv]
  simp only [hsplit]
  rw [show List.drop 1 ('X' :: u) = u from rfl]

/-- Witness for `c10_second_y_dropped` on the claim's own example
`"X1.0,Y0.5,Y0.6"`: the `Y` channel is `[0.5]` and `0.6` is lost. -/
theorem c10_second_y_dropped_witness :
    emittedList (decodeMsg ("X1.0,Y0.5,Y0.6".toList) 0) =
      mkPoints (toTokens ("1.0".toList)) 0 (some 'X') (md2 {}) ++
      mkPoints (toTokens ("0.5".toList)) 0 (some 'Y') (md2 {}) ∧
    emittedAmps (decodeMsg ("X1.0,Y0.5,Y0.6".toList) 0) = [⟨10, -1⟩, ⟨5, -1⟩] :=
  ⟨c10_second_y_dropped ("1.0".toList) ("0.5".toList) ("0.6".toList) 0
      (by decide) (by decide) (by decide),
   by decide⟩

/-! ## Claim C6 — encode/decode round trip for unlabeled batches -/

/-- C6: joining tokens with commas (the `sendMultipleAmplitudes` wire
form) and decoding the result yields exactly the `parseFloat` values of
the parseable tokens, in order: every numeric token's value appears, and
no sample ever carries a token that `parseFloat` rejects. -/
theorem c6_round_trip (ts : List (List Char)) (A : ℤ)
    (h : ∀ t ∈ ts, plainTok t) (hne : ts ≠ []) :
    emittedAmps (decodeMsg (joinComma ts) A) = ts.filterMap parseFloatNum ∧
    (∀ t ∈ ts, ∀ q, parseFloatNum t = some q →
       q ∈ emittedAmps (decodeMsg (joinComma ts) A)) ∧
    (∀ q ∈ emittedAmps (decodeMsg (joinComma ts) A),
       ∃ t ∈ ts, parseFloatNum t = some q) := by
  have main : emittedAmps (decodeMsg (joinComma ts) A) = ts.filterMap parseFloatNum := by
    cases ts with
    | nil => exact absurd rfl hne
    | cons t rest =>
      obtain ⟨hne', htr, hcm, hb1, hb2, hbT, hbX, hbY, hbZ⟩ := h t (by simp)
      cases rest with
      | nil =>
        show emittedAmps (decodeMsg t A) = List.filterMap parseFloatNum [t]
        unfold decodeMsg
        rw [if_neg (by rintro (h1 | h2); exacts [hb1 h1, hb2 h2])]
        rw [if_neg hcm]
        cases hq : parseFloatNum t with
        | some q => simp [emittedAmps, emittedList, hq, List.filterMap_cons]
        | none => simp [emittedAmps, emittedList, noEmit, hq, List.filterMap_cons]
      | cons t2 rest2 =>
        have hhead : (joinComma (t :: t2 :: rest2)).head? = t.head? :=
          joinComma_head t (t2 :: rest2) hne'
        unfold decodeMsg
        rw [if_neg (by rw [hhead]; rintro (h1 | h2); exacts [hb1 h1, hb2 h2])]
        rw [if_pos (show (',' : Char) ∈ joinComma (t :: t2 :: rest2) from by
          show (',' : Char) ∈ t ++ ',' :: joinComma (t2 :: rest2)
          simp)]
        unfold decodeComma
        have hmh : metaHeader (joinComma (t :: t2 :: rest2)) = none :=
          metaHeader_none _ (by rw [hhead]; exact hbT)
        simp only [hmh]
        show emittedAmps (emitBatch (decodeChannels _ _ _)) = _
        unfold emittedAmps
        rw [emittedList_emitBatch]
        unfold decodeChannels
        rw [if_neg (by rw [hhead]; exact hbX)]
        rw [toTokens_joinComma (t :: t2 :: rest2)
          (fun u hu => ⟨(h u hu).2.2.1, (h u hu).2.1, (h u hu).1⟩)]
        exact mkPointsFrom_amps (t :: t2 :: rest2).length A none {} (t :: t2 :: rest2) 0
  refine ⟨main, ?_, ?_⟩
  · intro t htm q hq
    rw [main]
    exact List.mem_filterMap.mpr ⟨t, htm, hq⟩
  · intro q hq
    rw [main] at hq
    exact List.mem_filterMap.mp hq

/-- Witness for `c6_round_trip` at the batch `["1.50", "abc", "2"]`: the
numeric tokens round-trip to their values and the non-numeric token
appears in no sample. -/
theorem c6_round_trip_witness :
    emittedAmps (decodeMsg (joinComma [("1.50".toList), ("abc".toList), ("2".toList)]) 0) =
      [("1.50".toList), ("abc".toList), ("2".toList)].filterMap parseFloatNum ∧
    emittedAmps (decodeMsg (joinComma [("1.50".toList), ("abc".toList), ("2".toList)]) 0) =
      [⟨150, -2⟩, ⟨2, 0⟩] :=
  ⟨(c6_round_trip [("1.50".toList), ("abc".toList), ("2".toList)] 0
      (by decide) (by decide)).1,
   by decide⟩

/-! ## Claim C5 — timestamp synthesis -/

/-- Every channel sample's timestamp is determined by the channel's
token count, its token index, and the arrival instant. -/
theorem mkPoints_mem_time (pts : List (List Char)) (A : ℤ) (wt : Option Char)
    (md : SampleMeta) :
    ∀ s ∈ mkPoints pts A wt md,
      ∃ n j, s.batchSize = some n ∧ s.batchIndex = some j ∧
        s.timestamp = A - ((n : ℤ) - 1 - (j : ℤ)) * 10 := by
  intro s hs
  obtain ⟨-, -, -, -, h5, j, hj1, -, hj3⟩ := mkPointsFrom_mem pts.length A wt md pts 0 s hs
  exact ⟨pts.length, j, h5, hj1, hj3⟩

/-- Every sample produced by the channel decoder satisfies the timestamp
formula with respect to the one arrival instant `A` passed to it. -/
theorem decodeChannels_mem_time (pm : List Char) (A : ℤ) (md : SampleMeta) :
    ∀ s ∈ decodeChannels pm A md,
      ∃ n j, s.batchSize = some n ∧ s.batchIndex = some j ∧
        s.timestamp = A - ((n : ℤ) - 1 - (j : ℤ)) * 10 := by
  intro s hs
  unfold decodeChannels at hs
  split at hs
  · split at hs
    · split at hs
      · split at hs
        · rcases List.mem_append.mp hs with h12 | h3
          · rcases List.mem_append.mp h12 with h1 | h2
            · exact mkPoints_mem_time _ A _ _ s h1
            · exact mkPoints_mem_time _ A _ _ s h2
          · exact mkPoints_mem_time _ A _ _ s h3
        · exact absurd hs (by simp)
      · exact absurd hs (by simp)
    · split at hs
      · split at hs
        · rcases List.mem_append.mp hs with h1 | h2
          · exact mkPoints_mem_time _ A _ _ s h1
          · exact mkPoints_mem_time _ A _ _ s h2
        · exact absurd hs (by simp)
      · exact mkPoints_mem_time _ A _ _ s hs
  · exact mkPoints_mem_time _ A _ _ s hs

/-- Every batch sample any message emits is timestamped
`A − (batchSize − 1 − batchIndex) × 10` from the message's single
arrival instant `A` — in particular the `X`, `Y` and `Z` channels of one
frame all share the same instant. -/
theorem decodeMsg_shared_instant (s : List Char) (A : ℤ) :
    ∀ samp ∈ emittedList (decodeMsg s A), ∀ n i,
      samp.batchSize = some n → samp.batchIndex = some i →
      samp.timestamp = A - ((n : ℤ) - 1 - (i : ℤ)) * 10 := by
  intro samp hmem n i hbs hbi
  unfold decodeMsg at hmem
  split at hmem
  · split at hmem
    · exact absurd hmem (by simp [emittedList])
    · split at hmem
      · exact absurd hmem (by simp [emittedList])
      · exact absurd hmem (by simp [emittedList, noEmit])
  · split at hmem
    · unfold decodeComma at hmem
      split at hmem
      · rw [emittedList_emitBatch] at hmem
        obtain ⟨n0, j0, h1, h2, h3⟩ := decodeChannels_mem_time _ A _ samp hmem
        rw [hbs] at h1
        rw [hbi] at h2
        injection h1 with h1
        injection h2 with h2
        rw [h1, h2]
        exact h3
      · rw [emittedList_emitBatch] at hmem
        obtain ⟨n0, j0, h1, h2, h3⟩ := decodeChannels_mem_time _ A _ samp hmem
        rw [hbs] at h1
        rw [hbi] at h2
        injection h1 with h1
        injection h2 with h2
        rw [h1, h2]
        exact h3
    · split at hmem
      · simp only [emittedList, List.mem_singleton] at hmem
        rw [hmem] at hbs
        exact absurd hbs (by simp)
      · exact absurd hmem (by simp [emittedList, noEmit])

/-- C5: a decoded channel of `n` parseable tokens yields `n` samples;
sample `i` is timestamped `A − (n − 1 − i) × 10` ms, so timestamps are
non-decreasing and the last sample's timestamp is the arrival instant
itself; and every batch sample of any decoded frame satisfies the same
formula with the frame's single arrival instant, so all channels of one
frame share it. -/
theorem c5_timestamps (ps : List (List Char)) (A : ℤ) (wt : Option Char)
    (md : SampleMeta) (h : ∀ p ∈ ps, (parseFloatNum p).isSome) :
    (mkPoints ps A wt md).length = ps.length ∧
    (∀ k (hk : k < (mkPoints ps A wt md).length),
       ((mkPoints ps A wt md).get ⟨k, hk⟩).timestamp =
         A - ((ps.length : ℤ) - 1 - (k : ℤ)) * 10) ∧
    (∀ k (hk1 : k < (mkPoints ps A wt md).length)
       (hk2 : k + 1 < (mkPoints ps A wt md).length),
       ((mkPoints ps A wt md).get ⟨k, hk1⟩).timestamp ≤
         ((mkPoints ps A wt md).get ⟨k + 1, hk2⟩).timestamp) ∧
    (ps ≠ [] → ((mkPoints ps A wt md).getLast?).map (·.timestamp) = some A) ∧
    (∀ (s : List Char), ∀ samp ∈ emittedList (decodeMsg s A), ∀ n i,
       samp.batchSize = some n → samp.batchIndex = some i →
       samp.timestamp = A - ((n : ℤ) - 1 - (i : ℤ)) * 10) := by
  unfold mkPoints
  have hlen := mkPointsFrom_length ps.length A wt md ps 0 h
  refine ⟨hlen, ?_, ?_, ?_, fun s => decodeMsg_shared_instant s A⟩
  · intro k hk
    have hg := (mkPointsFrom_get ps.length A wt md ps 0 h k hk).2
    rw [hg]
    push_cast
    ring_nf
  · intro k hk1 hk2
    have h1 := (mkPointsFrom_get ps.length A wt md ps 0 h k hk1).2
    have h2 := (mkPointsFrom_get ps.length A wt md ps 0 h (k + 1) hk2).2
    rw [h1, h2]
    have : k + 1 < ps.length := by rw [← hlen]; exact hk2
    push_cast
    omega
  · intro hne
    have hlpos : 0 < ps.length := List.length_pos.mpr hne
    have hidx : (mkPointsFrom ps.length A wt md 0 ps).length - 1 <
        (mkPointsFrom ps.length A wt md 0 ps).length := by
      rw [hlen]; omega
    rw [List.getLast?_eq_getElem?]
    rw [List.getElem?_eq_getElem hidx]
    have hg := (mkPointsFrom_get ps.length A wt md ps 0 h
      ((mkPointsFrom ps.length A wt md 0 ps).length - 1) hidx).2
    rw [List.get_eq_getElem] at hg
    simp only [Option.map_some']
    rw [hg, hlen]
    have h1 : ((ps.length - 1 : ℕ) : ℤ) = (ps.length : ℤ) - 1 := by
      push_cast [Nat.cast_sub (by omega : 1 ≤ ps.length)]
      ring
    rw [show ((0 : ℕ) : ℤ) + ((ps.length - 1 : ℕ) : ℤ) = ((ps.length - 1 : ℕ) : ℤ) from by ring]
    rw [h1]
    ring_nf

/-- Witness for `c5_timestamps` at a three-token channel: three samples
with timestamps `A − 20, A − 10, A`. -/
theorem c5_timestamps_witness :
    (mkPoints [("1".toList), ("2".toList), ("3".toList)] 100 none {}).length = 3 ∧
    ((mkPoints [("1".toList), ("2".toList), ("3".toList)] 100 none
      {}).getLast?).map (·.timestamp) = some 100 :=
  ⟨(c5_timestamps [("1".toList), ("2".toList), ("3".toList)] 100 none {} (by decide)).1,
   (c5_timestamps [("1".toList), ("2".toList), ("3".toList)] 100 none {}
      (by decide)).2.2.2.1 (by decide)⟩
